import Mathlib

/-!
# Verification of the sync_image image-transformation and build pipeline

This file gives a shallow embedding of the core of the `sync_image`
repository (a Go program that mirrors container images between registries)
and proves the specification claims about it.

Strings are modelled as `List Char` (`Str`); the Go byte-length and the
character count agree on the ASCII references the program handles.
`strings.TrimSpace` is modelled over the ASCII whitespace characters.
Registry rewrite patterns are modelled as the anchored literal-prefix
patterns (`^literal`) that the program's configuration actually uses;
regex metacharacter effects beyond the `^` anchor are out of scope.
Effectful collaborators (the Docker daemon, the remote registry, the
ticket queue) appear as explicit result parameters ("oracles"), so every
control-flow decision of the Go code is reproduced as a pure function.
-/

abbrev Str := List Char

/-- Characters trimmed by `strings.TrimSpace` (ASCII fragment). -/
def goIsSpace (c : Char) : Bool :=
  c == ' ' || c == '\t' || c == '\n' || c == Char.ofNat 11 || c == Char.ofNat 12 || c == '\r'

/-- Model of Go `strings.TrimSpace`: drop whitespace from both ends. -/
def trimSpace (s : Str) : Str :=
  ((s.dropWhile goIsSpace).reverse.dropWhile goIsSpace).reverse

/-- Model of Go `strings.Contains(s, c)` for a one-character substring. -/
def containsChar (s : Str) (c : Char) : Bool :=
  s.any (fun x => x == c)

/-- Model of Go `strings.Index(s, c)` for a one-character substring:
first index of `c` in `s`, or `-1` when absent.  Character positions are
used instead of byte positions; the order of first occurrences (all that
the program compares) is the same. -/
def indexOfChar : Str → Char → Int
  | [], _ => -1
  | x :: xs, c =>
    if x == c then 0
    else
      let r := indexOfChar xs c
      if r == -1 then -1 else r + 1

/-- Character list of a string literal. -/
def strLit (s : String) : Str := s.data

/-- Model of Go `strings.Split(s, c)` for a one-character separator. -/
def splitOnChar (c : Char) : Str → List Str
  | [] => [[]]
  | x :: xs =>
    let r := splitOnChar c xs
    if x == c then [] :: r
    else
      match r with
      | [] => [[x]]
      | h :: t => (x :: h) :: t

/-- Model of Go `strings.Join(parts, c)` for a one-character separator. -/
def joinChar (c : Char) : List Str → Str
  | [] => []
  | [x] => x
  | x :: xs => x ++ c :: joinChar c xs

/-- `utils.NormalizeImageName` (pkg/utils): trim, then expand Docker-Hub
short names.  The branch structure and conditions are copied from the Go
source: the first branch fires when the trimmed name has no dot, or has
no slash and its first dot comes after its first slash; the second
(`library`) branch fires when the first condition fails and the name has
no slash. -/
def normalizeImageName (s : Str) : Str :=
  if containsChar (trimSpace s) '.' = false
      ∨ (containsChar (trimSpace s) '/' = false
         ∧ indexOfChar (trimSpace s) '/' < indexOfChar (trimSpace s) '.') then
    strLit "docker.io/" ++ trimSpace s
  else if containsChar (trimSpace s) '/' = false then
    strLit "docker.io/library/" ++ trimSpace s
  else
    trimSpace s

/-- A rewrite rule of the configuration: the Go program stores a regex of
the form `^literal` (all configured patterns are anchored literals) and a
replacement.  `pat` is the literal part after the `^` anchor. -/
structure RewriteRule where
  pat : Str
  repl : Str
deriving DecidableEq, Repr

/-- Whether `pat` occurs at the start of `s` (the anchored-match test). -/
def matchesAtStart : Str → Str → Bool
  | _, [] => true
  | [], _ :: _ => false
  | x :: xs, y :: ys => x == y && matchesAtStart xs ys

/-- One step of `regexp.ReplaceAllString` for an anchored pattern: replace
the leading match, if any. -/
def applyRewriteRule (s : Str) (r : RewriteRule) : Str :=
  if matchesAtStart s r.pat then r.repl ++ s.drop r.pat.length else s

/-- `utils.TransformImageName`: strip any digest suffix (after `@`), then
apply every configured rule in sequence. -/
def transformImageName (s : Str) (rules : List RewriteRule) : Str :=
  let result := if containsChar s '@' then s.takeWhile (fun c => !(c == '@')) else s
  rules.foldl applyRewriteRule result

/-- `utils.BuildTargetImageName`: compose
`targetRegistry/targetNamespace/repository:tag` from the last path
segment of the rewritten name; empty registry or namespace segments are
omitted. -/
def buildTargetImageName (transformedName targetRegistry targetNamespace : Str) : Str :=
  let segments := splitOnChar '/' transformedName
  let repository := segments.getLastD []
  let r1 := if targetNamespace ≠ [] then targetNamespace ++ '/' :: repository else repository
  if targetRegistry ≠ [] then targetRegistry ++ '/' :: r1 else r1

/-- ASCII letter-or-digit test, matching the Go regex class `[a-zA-Z0-9]`. -/
def isAlnumChar (c : Char) : Bool :=
  c.isAlpha || c.isDigit

/-- A character allowed in the middle of an image name, the Go regex
class of alphanumerics plus dot, underscore, colon, slash and dash. -/
def isNameMiddleChar (c : Char) : Bool :=
  isAlnumChar c || c == '.' || c == '_' || c == ':' || c == '/' || c == '-'

/-- Whole-string match of `[alnum][alnum.,_,colon,slash,dash]*[alnum]` (the Go regex):
first and last characters alphanumeric (so at least two characters), all
middle characters in the extended class. -/
def matchesNameGrammar : Str → Bool
  | [] => false
  | [_] => false
  | c :: rest =>
    isAlnumChar c && rest.dropLast.all isNameMiddleChar &&
      (match rest.getLast? with
       | some z => isAlnumChar z
       | none => false)

/-- The shell metacharacters rejected by `utils.IsValidImageName`. -/
def dangerousChars : Str :=
  [';', '&', '|', '`', '$', '(', ')', '{', '}', '[', ']', '<', '>']

/-- `utils.IsValidImageName`: reject empty names, names over 255
characters, names outside the restrictive grammar, and names containing a
shell metacharacter (the checks run in the source's order). -/
def isValidImageName (s : Str) : Bool :=
  if s = [] then false
  else if 255 < s.length then false
  else if !matchesNameGrammar s then false
  else if dangerousChars.any (fun c => containsChar s c) then false
  else true

/-- The typed error kinds of pkg/errors. -/
inductive ErrType
  | configE
  | githubE
  | dockerE
  | registryE
  | validationE
  | systemE
deriving DecidableEq, Repr

/-- `errors.AppError`: a typed application error with a message.  The
`Context` map and `Cause` chain carry no control flow and are omitted. -/
structure AppError where
  type : ErrType
  message : Str
deriving DecidableEq, Repr

/-- `errors.NewValidationError`. -/
def newValidationError (msg : Str) : AppError :=
  ⟨.validationE, msg⟩

/-- `SDKBuilder.filterSupportedPlatforms`: keep each requested platform
that occurs (exact string equality) in the upstream list, in request
order. -/
def filterSupportedPlatforms (requested upstream : List Str) : List Str :=
  match requested with
  | [] => []
  | req :: rest =>
    if upstream.any (fun up => up == req) then
      req :: filterSupportedPlatforms rest upstream
    else
      filterSupportedPlatforms rest upstream

/-- `SDKBuilder.getUnsupportedPlatforms`: the requested platforms that do
not occur in the upstream list, in request order. -/
def getUnsupportedPlatforms (requested upstream : List Str) : List Str :=
  match requested with
  | [] => []
  | req :: rest =>
    if upstream.any (fun up => up == req) then
      getUnsupportedPlatforms rest upstream
    else
      req :: getUnsupportedPlatforms rest upstream

/-- The build path selected by `chooseBuildStrategy`: `singleArch` is the
direct Docker-SDK daemon build (`buildSingleArch`), `buildx` the
multi-platform external-builder build (`buildWithBuildx`). -/
inductive BuildStrategy
  | singleArch (platform : Str)
  | buildx (platforms : Str)
deriving DecidableEq, Repr

/-- `SDKBuilder.chooseBuildStrategy` (decision part): split and trim the
requested platform string, intersect with the upstream architectures,
fail with a ValidationError when the intersection is empty, build single-
architecture when it has one element, and with buildx otherwise.  The
embedding returns the selected strategy; executing it is I/O. -/
def chooseBuildStrategy (targetPlatforms : Str) (upstreamArchs : List Str) :
    Except AppError BuildStrategy :=
  let requestedPlatforms := (splitOnChar ',' targetPlatforms).map trimSpace
  let supportedPlatforms := filterSupportedPlatforms requestedPlatforms upstreamArchs
  match supportedPlatforms with
  | [] => .error (newValidationError (strLit "上游镜像不支持任何请求的架构"))
  | [p] => .ok (.singleArch p)
  | ps => .ok (.buildx (joinChar ',' ps))

/-- The conservative fallback used by `BuildAndPush` when the
architecture probe yields nothing: a one-element platform set. -/
def defaultUpstreamArchs : List Str := [strLit "linux/amd64"]

/-- `SDKBuilder.BuildAndPush` (decision part): ensure login, probe the
upstream architectures (falling back to `defaultUpstreamArchs` on probe
failure), pick the effective platform request (per-request `platform`
overrides the configured `Platforms`), and choose the build strategy.
`loginResult` and `probeResult` are the outcomes of the two effectful
calls: `probeResult = none` models `inspectImageArchitectures` failing. -/
def buildAndPush (configPlatforms : Str) (loginResult : Option AppError)
    (probeResult : Option (List Str)) (platform : Str) :
    Except AppError BuildStrategy :=
  match loginResult with
  | some e => .error e
  | none =>
    let upstreamArchs :=
      match probeResult with
      | none => defaultUpstreamArchs
      | some archs => archs
    let targetPlatforms := if platform ≠ [] then platform else configPlatforms
    chooseBuildStrategy targetPlatforms upstreamArchs

/-- A registered post-publish hook (`registry.PostProcessor`): a name, an
applicability test and an effectful action whose outcome is modelled by
`process` (`some msg` = the hook failed with that message). -/
structure PostProcessor where
  name : Str
  canProcess : Str → Str → Bool
  process : Str → Str → Option Str

/-- The state accumulated by `PostProcessorManager.ProcessImage`'s loop:
the hooks actually invoked (in order), the collected failure messages,
and the success count. -/
structure PostProcessRun where
  executed : List Str
  errors : List Str
  processedCount : Nat
deriving DecidableEq, Repr

/-- One iteration of the `ProcessImage` loop body. -/
def postProcessStep (imageName registryURL : Str) (acc : PostProcessRun)
    (p : PostProcessor) : PostProcessRun :=
  if p.canProcess imageName registryURL then
    match p.process imageName registryURL with
    | some _ =>
      { acc with executed := acc.executed ++ [p.name], errors := acc.errors ++ [p.name] }
    | none =>
      { acc with executed := acc.executed ++ [p.name],
                 processedCount := acc.processedCount + 1 }
  else acc

/-- The loop of `PostProcessorManager.ProcessImage` over the registered
hooks, in registration order. -/
def runPostProcessors (ps : List PostProcessor) (imageName registryURL : Str) :
    PostProcessRun :=
  ps.foldl (postProcessStep imageName registryURL) ⟨[], [], 0⟩

/-- `PostProcessorManager.ProcessImage`: run every applicable hook,
collect failures, and return `nil` unconditionally (hook failures are
logged, never escalated). -/
def managerProcessImage (ps : List PostProcessor) (imageName registryURL : Str) :
    PostProcessRun × Option AppError :=
  (runPostProcessors ps imageName registryURL, none)

/-- `EnhancedGenericProcessor.ProcessImage`: run the post-processor
manager against the configured registry and return `nil` unconditionally
(a failing chain is logged and ignored). -/
def enhancedProcessorProcessImage (cfgRegistry : Str) (hooks : List PostProcessor)
    (imageName : Str) : PostProcessRun × Option AppError :=
  ((managerProcessImage hooks imageName cfgRegistry).1, none)

/-- `ImageTransformer.Transform`: normalize the source name, apply the
rewrite rules, compose the target name; the Go function always returns a
`nil` error. -/
def transform (rules : List RewriteRule) (originalImage targetRegistry targetNamespace : Str) :
    Except AppError (Str × Str) :=
  let sourceImage := normalizeImageName originalImage
  let transformedName := transformImageName sourceImage rules
  let targetImage := buildTargetImageName transformedName targetRegistry targetNamespace
  .ok (sourceImage, targetImage)

/-- `ImageTransformer.ValidateTransformation`: reject empty or invalid
source/target names with a ValidationError (checks in source order). -/
def validateTransformation (sourceImage targetImage : Str) : Option AppError :=
  if sourceImage = [] then
    some (newValidationError (strLit "源镜像名称不能为空"))
  else if targetImage = [] then
    some (newValidationError (strLit "目标镜像名称不能为空"))
  else if !isValidImageName sourceImage then
    some (newValidationError (strLit "无效的源镜像名称: " ++ sourceImage))
  else if !isValidImageName targetImage then
    some (newValidationError (strLit "无效的目标镜像名称: " ++ targetImage))
  else
    none

/-- `DefaultSyncService.extractRegistryURL`: the first path segment of
the image name. -/
def extractRegistryURL (imageName : Str) : Str :=
  (splitOnChar '/' imageName).headD (strLit "docker.io")

/-- The outcome of one `syncImage` run: the transformed pair, whether the
build step was reached, and the terminal error if any.  Go wraps errors
with `fmt.Errorf` before returning; the wrap keeps the typed cause, which
is what the embedding records. -/
structure SyncResult where
  sourceImage : Str
  targetImage : Str
  buildAttempted : Bool
  error : Option AppError
deriving DecidableEq, Repr

/-- `DefaultSyncService.syncImage`: transform the name, validate the
result (aborting before any build on failure), build and push
(`buildResult` is the outcome of `dockerBuilder.BuildAndPush`), then run
the dynamic registry post-processing, which always succeeds. -/
def syncImage (rules : List RewriteRule) (registry nspace : Str)
    (hooks : List PostProcessor) (buildResult : Str → Str → Str → Option AppError)
    (originalImage platform : Str) : SyncResult :=
  match transform rules originalImage registry nspace with
  | .error e => ⟨[], [], false, some e⟩
  | .ok (sourceImage, targetImage) =>
    match validateTransformation sourceImage targetImage with
    | some e => ⟨sourceImage, targetImage, false, some e⟩
    | none =>
      match buildResult sourceImage targetImage platform with
      | some e => ⟨sourceImage, targetImage, true, some e⟩
      | none =>
        match (enhancedProcessorProcessImage registry hooks targetImage).2 with
        | some e => ⟨sourceImage, targetImage, true, some e⟩
        | none => ⟨sourceImage, targetImage, true, none⟩

/-- The sync verdict computed inside `processSingleIssue`: the issue
processing error, if any, else the `syncImage` error. -/
def syncVerdict (rules : List RewriteRule) (registry nspace : Str)
    (hooks : List PostProcessor) (buildResult : Str → Str → Str → Option AppError)
    (issueResult : Except AppError (Str × Str)) : Option AppError :=
  match issueResult with
  | .error e => some e
  | .ok (originalImage, platform) =>
    (syncImage rules registry nspace hooks buildResult originalImage platform).error

/-- `DefaultSyncService.processSingleIssue`: compute the sync verdict,
render the report, post it via `FinishIssue` (whose outcome is the
`finishResult` oracle, a function of the success flag), log any reporting
failure, and return the sync verdict. -/
def processSingleIssue (rules : List RewriteRule) (registry nspace : Str)
    (hooks : List PostProcessor) (buildResult : Str → Str → Str → Option AppError)
    (issueResult : Except AppError (Str × Str))
    (finishResult : Bool → Option AppError) : Option AppError :=
  let syncErr := syncVerdict rules registry nspace hooks buildResult issueResult
  let _finishErr := finishResult syncErr.isNone
  syncErr

/-! ## Helper lemmas about the string model -/

theorem head?_dropWhile_not {p : Char → Bool} {l : Str} {c : Char}
    (h : (l.dropWhile p).head? = some c) : p c = false := by
  induction l with
  | nil => simp [List.dropWhile] at h
  | cons x xs ih =>
    rw [List.dropWhile_cons] at h
    by_cases hp : p x = true
    · exact ih (by simpa [hp] using h)
    · rw [if_neg hp] at h
      simp only [List.head?_cons, Option.some.injEq] at h
      rw [← h]
      exact Bool.eq_false_iff.mpr hp

theorem dropWhile_eq_self_of_head {p : Char → Bool} {l : Str}
    (h : ∀ c, l.head? = some c → p c = false) : l.dropWhile p = l := by
  cases l with
  | nil => rfl
  | cons x xs =>
    have hx : p x = false := h x rfl
    simp [List.dropWhile_cons, hx]

theorem getLast?_dropWhile {p : Char → Bool} {l : Str} {c : Char}
    (h : (l.dropWhile p).getLast? = some c) : l.getLast? = some c := by
  induction l with
  | nil => simp [List.dropWhile] at h
  | cons x xs ih =>
    rw [List.dropWhile_cons] at h
    by_cases hp : p x = true
    · rw [if_pos hp] at h
      have hxs := ih h
      cases xs with
      | nil => simp at hxs
      | cons y ys =>
        rw [List.getLast?_cons_cons]
        exact hxs
    · rwa [if_neg hp] at h

theorem trimSpace_head? {s : Str} {c : Char}
    (h : (trimSpace s).head? = some c) : goIsSpace c = false := by
  unfold trimSpace at h
  rw [List.head?_reverse] at h
  have h2 := getLast?_dropWhile h
  rw [List.getLast?_reverse] at h2
  exact head?_dropWhile_not h2

theorem trimSpace_getLast? {s : Str} {c : Char}
    (h : (trimSpace s).getLast? = some c) : goIsSpace c = false := by
  unfold trimSpace at h
  rw [List.getLast?_reverse] at h
  exact head?_dropWhile_not h

theorem trimSpace_eq_self {l : Str}
    (h1 : ∀ c, l.head? = some c → goIsSpace c = false)
    (h2 : ∀ c, l.getLast? = some c → goIsSpace c = false) :
    trimSpace l = l := by
  unfold trimSpace
  rw [dropWhile_eq_self_of_head h1]
  rw [dropWhile_eq_self_of_head (fun c hc => h2 c (by rwa [List.head?_reverse] at hc))]
  exact List.reverse_reverse l

theorem trimSpace_trimSpace (s : Str) : trimSpace (trimSpace s) = trimSpace s :=
  trimSpace_eq_self (fun _ h => trimSpace_head? h) (fun _ h => trimSpace_getLast? h)

theorem trimSpace_append_of {pre : Str} (t : Str)
    (hpre : pre ≠ [])
    (h1 : ∀ c, pre.head? = some c → goIsSpace c = false)
    (h2 : ∀ c, pre.getLast? = some c → goIsSpace c = false)
    (ht : trimSpace t = t) :
    trimSpace (pre ++ t) = pre ++ t := by
  apply trimSpace_eq_self
  · intro c hc
    cases pre with
    | nil => exact absurd rfl hpre
    | cons x xs =>
      simp only [List.cons_append, List.head?_cons] at hc
      exact h1 c (by simpa using hc)
  · intro c hc
    cases ht' : t with
    | nil =>
      rw [ht'] at hc
      simp only [List.append_nil] at hc
      exact h2 c hc
    | cons y ys =>
      rw [ht'] at hc
      rw [List.getLast?_append_of_ne_nil pre (by simp)] at hc
      have hlast : (trimSpace t).getLast? = some c := by
        rw [ht, ht']
        exact hc
      exact trimSpace_getLast? hlast

theorem containsChar_append (a b : Str) (c : Char) :
    containsChar (a ++ b) c = (containsChar a c || containsChar b c) := by
  simp [containsChar, List.any_append]

theorem goIsSpace_of_head (x : Char) (xs : Str) (hx : goIsSpace x = false) :
    ∀ c, (x :: xs).head? = some c → goIsSpace c = false := by
  intro c hc
  simp only [List.head?_cons, Option.some.injEq] at hc
  rwa [← hc]

theorem goIsSpace_of_getLast (pre : Str) (z : Char)
    (h : pre.getLast? = some z) (hz : goIsSpace z = false) :
    ∀ c, pre.getLast? = some c → goIsSpace c = false := by
  intro c hc
  rw [h, Option.some.injEq] at hc
  rwa [← hc]

/-- A trimmed string that already has a dot and a slash is a fixed point
of `NormalizeImageName`. -/
theorem normalizeImageName_fixed {y : Str} (htrim : trimSpace y = y)
    (hdot : containsChar y '.' = true) (hslash : containsChar y '/' = true) :
    normalizeImageName y = y := by
  have hA : ¬(containsChar y '.' = false
      ∨ (containsChar y '/' = false ∧ indexOfChar y '/' < indexOfChar y '.')) := by
    rw [hdot, hslash]; simp
  have hB : ¬(containsChar y '/' = false) := by rw [hslash]; simp
  unfold normalizeImageName
  rw [htrim, if_neg hA, if_neg hB]

theorem trimSpace_dockerIo_append {t : Str} (ht : trimSpace t = t) :
    trimSpace (strLit "docker.io/" ++ t) = strLit "docker.io/" ++ t := by
  apply trimSpace_append_of t (by decide)
  · exact goIsSpace_of_head 'd' (strLit "ocker.io/") (by decide)
  · exact goIsSpace_of_getLast (strLit "docker.io/") '/' (by decide) (by decide)
  · exact ht

theorem trimSpace_dockerIoLibrary_append {t : Str} (ht : trimSpace t = t) :
    trimSpace (strLit "docker.io/library/" ++ t) = strLit "docker.io/library/" ++ t := by
  apply trimSpace_append_of t (by decide)
  · exact goIsSpace_of_head 'd' (strLit "ocker.io/library/") (by decide)
  · exact goIsSpace_of_getLast (strLit "docker.io/library/") '/' (by decide) (by decide)
  · exact ht

/-! ## Claim theorems -/

/-- C8: Normalization is idempotent: for every image reference `x`,
`normalize (normalize x) = normalize x`. -/
theorem claim_C8_normalize_idempotent (s : Str) :
    normalizeImageName (normalizeImageName s) = normalizeImageName s := by
  have ht := trimSpace_trimSpace s
  by_cases h1 : containsChar (trimSpace s) '.' = false
      ∨ (containsChar (trimSpace s) '/' = false
         ∧ indexOfChar (trimSpace s) '/' < indexOfChar (trimSpace s) '.')
  · have hy : normalizeImageName s = strLit "docker.io/" ++ trimSpace s := by
      unfold normalizeImageName; rw [if_pos h1]
    rw [hy]
    apply normalizeImageName_fixed (trimSpace_dockerIo_append ht)
    · rw [containsChar_append]
      have hd : containsChar (strLit "docker.io/") '.' = true := by decide
      rw [hd]; rfl
    · rw [containsChar_append]
      have hd : containsChar (strLit "docker.io/") '/' = true := by decide
      rw [hd]; rfl
  · by_cases h2 : containsChar (trimSpace s) '/' = false
    · have hy : normalizeImageName s = strLit "docker.io/library/" ++ trimSpace s := by
        unfold normalizeImageName; rw [if_neg h1, if_pos h2]
      rw [hy]
      apply normalizeImageName_fixed (trimSpace_dockerIoLibrary_append ht)
      · rw [containsChar_append]
        have hd : containsChar (strLit "docker.io/library/") '.' = true := by decide
        rw [hd]; rfl
      · rw [containsChar_append]
        have hd : containsChar (strLit "docker.io/library/") '/' = true := by decide
        rw [hd]; rfl
    · have hy : normalizeImageName s = trimSpace s := by
        unfold normalizeImageName; rw [if_neg h1, if_neg h2]
      rw [hy]
      unfold normalizeImageName
      rw [ht, if_neg h1, if_neg h2]

theorem mem_filterSupportedPlatforms {R U : List Str} {x : Str} :
    x ∈ filterSupportedPlatforms R U ↔ x ∈ R ∧ x ∈ U := by
  induction R with
  | nil => simp [filterSupportedPlatforms]
  | cons r rest ih =>
    by_cases h : U.any (fun up => up == r) = true
    · have hrU : r ∈ U := by
        rcases List.any_eq_true.mp h with ⟨u, hu, he⟩
        rw [beq_iff_eq] at he
        rwa [← he]
      rw [filterSupportedPlatforms, if_pos h]
      simp only [List.mem_cons, ih]
      constructor
      · rintro (rfl | ⟨hx, hxU⟩)
        exacts [⟨Or.inl rfl, hrU⟩, ⟨Or.inr hx, hxU⟩]
      · rintro ⟨rfl | hx, hxU⟩
        exacts [Or.inl rfl, Or.inr ⟨hx, hxU⟩]
    · have hrU : r ∉ U := by
        intro hr
        exact h (List.any_eq_true.mpr ⟨r, hr, by simp⟩)
      rw [filterSupportedPlatforms, if_neg h, ih]
      simp only [List.mem_cons]
      constructor
      · rintro ⟨hx, hxU⟩
        exact ⟨Or.inr hx, hxU⟩
      · rintro ⟨rfl | hx, hxU⟩
        exacts [absurd hxU hrU, ⟨hx, hxU⟩]

theorem mem_getUnsupportedPlatforms {R U : List Str} {x : Str} :
    x ∈ getUnsupportedPlatforms R U ↔ x ∈ R ∧ x ∉ U := by
  induction R with
  | nil => simp [getUnsupportedPlatforms]
  | cons r rest ih =>
    by_cases h : U.any (fun up => up == r) = true
    · have hrU : r ∈ U := by
        rcases List.any_eq_true.mp h with ⟨u, hu, he⟩
        rw [beq_iff_eq] at he
        rwa [← he]
      rw [getUnsupportedPlatforms, if_pos h, ih]
      simp only [List.mem_cons]
      constructor
      · rintro ⟨hx, hxU⟩
        exact ⟨Or.inr hx, hxU⟩
      · rintro ⟨rfl | hx, hxU⟩
        exacts [absurd hrU hxU, ⟨hx, hxU⟩]
    · have hrU : r ∉ U := by
        intro hr
        exact h (List.any_eq_true.mpr ⟨r, hr, by simp⟩)
      rw [getUnsupportedPlatforms, if_neg h]
      simp only [List.mem_cons, ih]
      constructor
      · rintro (rfl | ⟨hx, hxU⟩)
        exacts [⟨Or.inl rfl, hrU⟩, ⟨Or.inr hx, hxU⟩]
      · rintro ⟨rfl | hx, hxU⟩
        exacts [Or.inl rfl, Or.inr ⟨hx, hxU⟩]

/-- The requested-platform list computed inside `chooseBuildStrategy`. -/
def resolvedPlatforms (targetPlatforms : Str) (upstreamArchs : List Str) : List Str :=
  filterSupportedPlatforms ((splitOnChar ',' targetPlatforms).map trimSpace) upstreamArchs

theorem chooseBuildStrategy_eq (targetPlatforms : Str) (upstreamArchs : List Str) :
    chooseBuildStrategy targetPlatforms upstreamArchs =
      match resolvedPlatforms targetPlatforms upstreamArchs with
      | [] => .error (newValidationError (strLit "上游镜像不支持任何请求的架构"))
      | [p] => .ok (.singleArch p)
      | ps => .ok (.buildx (joinChar ',' ps)) := rfl

theorem syncImage_eq (rules : List RewriteRule) (registry nspace : Str)
    (hooks : List PostProcessor) (br : Str → Str → Str → Option AppError)
    (oi pl : Str) :
    syncImage rules registry nspace hooks br oi pl =
      match validateTransformation (normalizeImageName oi)
          (buildTargetImageName (transformImageName (normalizeImageName oi) rules)
            registry nspace) with
      | some e =>
        ⟨normalizeImageName oi,
         buildTargetImageName (transformImageName (normalizeImageName oi) rules) registry nspace,
         false, some e⟩
      | none =>
        match br (normalizeImageName oi)
            (buildTargetImageName (transformImageName (normalizeImageName oi) rules)
              registry nspace) pl with
        | some e =>
          ⟨normalizeImageName oi,
           buildTargetImageName (transformImageName (normalizeImageName oi) rules) registry nspace,
           true, some e⟩
        | none =>
          ⟨normalizeImageName oi,
           buildTargetImageName (transformImageName (normalizeImageName oi) rules) registry nspace,
           true, none⟩ := rfl

theorem validateTransformation_invalid_target (src : Str) {tgt : Str}
    (h : isValidImageName tgt = false) :
    ∃ e, validateTransformation src tgt = some e ∧ e.type = .validationE := by
  unfold validateTransformation
  split_ifs with h1 h2 h3 h4
  · exact ⟨_, rfl, rfl⟩
  · exact ⟨_, rfl, rfl⟩
  · exact ⟨_, rfl, rfl⟩
  · exact ⟨_, rfl, rfl⟩
  · exact absurd (by rw [h]; rfl) h4

/-- Folding the rewrite rules over a string that none of them matches
leaves the string unchanged. -/
theorem foldl_applyRewriteRule_id (s : Str) :
    ∀ rules : List RewriteRule, (∀ r ∈ rules, matchesAtStart s r.pat = false) →
      rules.foldl applyRewriteRule s = s
  | [], _ => rfl
  | r :: rs, h => by
    rw [List.foldl_cons]
    have h1 : applyRewriteRule s r = s := by
      unfold applyRewriteRule
      rw [h r (List.mem_cons_self r rs)]
      simp
    rw [h1]
    exact foldl_applyRewriteRule_id s rs (fun r' hr' => h r' (List.mem_cons_of_mem r hr'))

/-- If the input has no digest marker and no rule matches, the rewrite
step returns the identical string. -/
theorem transformImageName_no_match {s : Str} {rules : List RewriteRule}
    (hdigest : containsChar s '@' = false)
    (hnomatch : ∀ r ∈ rules, matchesAtStart s r.pat = false) :
    transformImageName s rules = s := by
  unfold transformImageName
  rw [hdigest]
  simp only [Bool.false_eq_true, if_false]
  exact foldl_applyRewriteRule_id s rules hnomatch

theorem foldl_postProcessStep_executed (img reg : Str) :
    ∀ (hooks : List PostProcessor) (acc : PostProcessRun),
      (hooks.foldl (postProcessStep img reg) acc).executed
        = acc.executed
            ++ (hooks.filter (fun p => p.canProcess img reg)).map (fun p => p.name)
  | [], acc => by simp
  | p :: rest, acc => by
    rw [List.foldl_cons, foldl_postProcessStep_executed img reg rest, List.filter_cons]
    by_cases h : p.canProcess img reg = true
    · have hstep : (postProcessStep img reg acc p).executed = acc.executed ++ [p.name] := by
        unfold postProcessStep
        rw [if_pos h]
        cases p.process img reg <;> rfl
      rw [hstep, if_pos h]
      simp
    · have hstep : postProcessStep img reg acc p = acc := by
        unfold postProcessStep
        rw [if_neg h]
      rw [hstep, if_neg h]

/-- C1 (counterexample): for the reference `nginx:latest` under a rule
table containing only `^gcr.io`, the rewrite step returns a string
identical to its input (no rule matched), yet the pipeline does not fail
with a ValidationError: it proceeds to the build step and, when the build
succeeds, reports overall success.  This refutes the claim that a no-op
rewrite is treated as a terminal error. -/
theorem claim_C1_counterexample :
    transformImageName (normalizeImageName (strLit "nginx:latest"))
        [⟨strLit "gcr.io", strLit ""⟩]
      = normalizeImageName (strLit "nginx:latest")
    ∧ (syncImage [⟨strLit "gcr.io", strLit ""⟩] (strLit "registry.example.com")
        (strLit "test") [] (fun _ _ _ => none) (strLit "nginx:latest") []).error = none
    ∧ (syncImage [⟨strLit "gcr.io", strLit ""⟩] (strLit "registry.example.com")
        (strLit "test") [] (fun _ _ _ => none) (strLit "nginx:latest") []).buildAttempted
      = true := by
  refine ⟨by decide, by decide, by decide⟩

/-- C1 (amended): for every reference whose normalized form carries no
digest marker and matches none of the configured rule patterns, the
rewrite step returns the identical string; the pipeline does not detect
this: whenever the transformed pair passes name validation it proceeds to
the build step, and its verdict is exactly the build outcome — no
ValidationError is raised for the no-op rewrite. -/
theorem claim_C1_no_match_passthrough
    (rules : List RewriteRule) (registry nspace : Str) (hooks : List PostProcessor)
    (buildResult : Str → Str → Str → Option AppError) (originalImage platform : Str)
    (hdigest : containsChar (normalizeImageName originalImage) '@' = false)
    (hnomatch : ∀ r ∈ rules,
      matchesAtStart (normalizeImageName originalImage) r.pat = false)
    (hvalid : validateTransformation (normalizeImageName originalImage)
      (buildTargetImageName (normalizeImageName originalImage) registry nspace) = none) :
    transformImageName (normalizeImageName originalImage) rules
      = normalizeImageName originalImage
    ∧ (syncImage rules registry nspace hooks buildResult originalImage platform).buildAttempted
      = true
    ∧ (syncImage rules registry nspace hooks buildResult originalImage platform).error
      = buildResult (normalizeImageName originalImage)
          (buildTargetImageName (normalizeImageName originalImage) registry nspace)
          platform := by
  have htr := transformImageName_no_match hdigest hnomatch
  refine ⟨htr, ?_, ?_⟩
  · rw [syncImage_eq, htr, hvalid]
    cases hb : buildResult (normalizeImageName originalImage)
        (buildTargetImageName (normalizeImageName originalImage) registry nspace)
        platform <;> rfl
  · rw [syncImage_eq, htr, hvalid]
    cases hb : buildResult (normalizeImageName originalImage)
        (buildTargetImageName (normalizeImageName originalImage) registry nspace)
        platform <;> rfl

/-- C1 (witness for the amended claim), instantiated at `nginx:latest`
with the `^gcr.io` rule table. -/
theorem claim_C1_witness :
    transformImageName (normalizeImageName (strLit "nginx:latest"))
        [⟨strLit "gcr.io", strLit ""⟩]
      = normalizeImageName (strLit "nginx:latest")
    ∧ (syncImage [⟨strLit "gcr.io", strLit ""⟩] (strLit "registry.example.com")
        (strLit "test") [] (fun _ _ _ => none) (strLit "nginx:latest") []).buildAttempted
      = true := by
  have h := claim_C1_no_match_passthrough [⟨strLit "gcr.io", strLit ""⟩]
    (strLit "registry.example.com") (strLit "test") [] (fun _ _ _ => none)
    (strLit "nginx:latest") [] (by decide) (by decide) (by decide)
  exact ⟨h.1, h.2.1⟩

/-- C2: strategy threshold — a one-element resolved intersection selects
the single-platform path (direct daemon build), more than one element
selects the multi-platform buildx path, and an empty intersection yields
a ValidationError with no strategy (hence no build) chosen. -/
theorem claim_C2_strategy_threshold (targetPlatforms : Str) (upstreamArchs : List Str) :
    ((resolvedPlatforms targetPlatforms upstreamArchs).length = 1 →
      ∃ p, chooseBuildStrategy targetPlatforms upstreamArchs = .ok (.singleArch p))
    ∧ (1 < (resolvedPlatforms targetPlatforms upstreamArchs).length →
      ∃ ps, chooseBuildStrategy targetPlatforms upstreamArchs = .ok (.buildx ps))
    ∧ ((resolvedPlatforms targetPlatforms upstreamArchs).length = 0 →
      ∃ e, chooseBuildStrategy targetPlatforms upstreamArchs = .error e
        ∧ e.type = .validationE) := by
  rcases hr : resolvedPlatforms targetPlatforms upstreamArchs with _ | ⟨p, _ | ⟨q, ps⟩⟩
  · refine ⟨?_, ?_, ?_⟩ <;> intro h
    · simp at h
    · simp at h
    · exact ⟨_, by rw [chooseBuildStrategy_eq, hr], rfl⟩
  · refine ⟨?_, ?_, ?_⟩ <;> intro h
    · exact ⟨p, by rw [chooseBuildStrategy_eq, hr]⟩
    · simp at h
    · simp at h
  · refine ⟨?_, ?_, ?_⟩ <;> intro h
    · simp at h
    · exact ⟨_, by rw [chooseBuildStrategy_eq, hr]⟩
    · simp at h

/-- C2 (witness): the three thresholds at concrete platform sets. -/
theorem claim_C2_witness :
    (∃ p, chooseBuildStrategy (strLit "linux/amd64,linux/arm64") [strLit "linux/amd64"]
      = .ok (.singleArch p))
    ∧ (∃ ps, chooseBuildStrategy (strLit "linux/amd64,linux/arm64")
        [strLit "linux/amd64", strLit "linux/arm64"] = .ok (.buildx ps))
    ∧ (∃ e, chooseBuildStrategy (strLit "linux/amd64") [strLit "linux/arm64"]
        = .error e ∧ e.type = .validationE) :=
  ⟨(claim_C2_strategy_threshold _ _).1 (by decide),
   (claim_C2_strategy_threshold _ _).2.1 (by decide),
   (claim_C2_strategy_threshold _ _).2.2 (by decide)⟩

/-- C3: the resolved set is the intersection of the requested and
upstream sets under exact string equality, the skipped set is their
difference, and together they cover exactly the requested set. -/
theorem claim_C3_platform_intersection (R U : List Str) (x : Str) :
    (x ∈ filterSupportedPlatforms R U ↔ x ∈ R ∧ x ∈ U)
    ∧ (x ∈ getUnsupportedPlatforms R U ↔ x ∈ R ∧ x ∉ U)
    ∧ ((x ∈ filterSupportedPlatforms R U ∨ x ∈ getUnsupportedPlatforms R U) ↔ x ∈ R) := by
  refine ⟨mem_filterSupportedPlatforms, mem_getUnsupportedPlatforms, ?_⟩
  rw [mem_filterSupportedPlatforms, mem_getUnsupportedPlatforms]
  by_cases hU : x ∈ U <;> simp [hU]

/-- C4 (code bug): the code normalizes the bare name `nginx:latest` to
`docker.io/nginx:latest`; the `library` branch that the claim (and the
code's own comment on that branch) describes is not taken, so the
`library` namespace is not inserted. -/
theorem claim_C4_bare_name_divergence :
    normalizeImageName (strLit "nginx:latest") = strLit "docker.io/nginx:latest"
    ∧ normalizeImageName (strLit "nginx:latest")
      ≠ strLit "docker.io/library/nginx:latest" := by
  refine ⟨by decide, by decide⟩

/-- C5: the hook chain runs exactly the applicable hooks in registration
order — a hook's failure removes nothing from that list — always returns
success itself, and the pipeline verdict does not depend on the hook list
at all. -/
theorem claim_C5_hook_isolation (hooks : List PostProcessor) (imageName registryURL : Str) :
    (managerProcessImage hooks imageName registryURL).2 = none
    ∧ (runPostProcessors hooks imageName registryURL).executed
      = (hooks.filter (fun p => p.canProcess imageName registryURL)).map (fun p => p.name)
    ∧ ∀ (rules : List RewriteRule) (registry nspace : Str)
        (buildResult : Str → Str → Str → Option AppError) (originalImage platform : Str),
        (syncImage rules registry nspace hooks buildResult originalImage platform).error
          = (syncImage rules registry nspace [] buildResult originalImage platform).error := by
  refine ⟨rfl, ?_, ?_⟩
  · rw [runPostProcessors, foldl_postProcessStep_executed]
    rfl
  · intro rules registry nspace buildResult originalImage platform
    rw [syncImage_eq, syncImage_eq]

/-- C6: when the architecture probe yields no platform information
(`probeResult = none`), `BuildAndPush` does not abort: it continues with
strategy selection against the conservative one-element default platform
set. -/
theorem claim_C6_probe_fallback (configPlatforms platform : Str) :
    buildAndPush configPlatforms none none platform
      = chooseBuildStrategy (if platform ≠ [] then platform else configPlatforms)
          defaultUpstreamArchs
    ∧ defaultUpstreamArchs.length = 1 :=
  ⟨rfl, rfl⟩

/-- C7: the validity check rejects exactly the empty names, the names
over 255 characters, the names containing a shell metacharacter, and the
names outside the restrictive grammar; and the same check is applied to
the final target reference before any build is attempted — an invalid
target aborts the pipeline with a ValidationError before the build
step. -/
theorem claim_C7_name_validation :
    (∀ s : Str, isValidImageName s = false ↔
      (s = [] ∨ 255 < s.length ∨ (∃ c ∈ dangerousChars, c ∈ s)
        ∨ matchesNameGrammar s = false))
    ∧ (∀ (rules : List RewriteRule) (registry nspace : Str) (hooks : List PostProcessor)
        (buildResult : Str → Str → Str → Option AppError) (originalImage platform : Str),
        isValidImageName
          (buildTargetImageName (transformImageName (normalizeImageName originalImage) rules)
            registry nspace) = false →
        (syncImage rules registry nspace hooks buildResult originalImage platform).buildAttempted
          = false
        ∧ ∃ e, (syncImage rules registry nspace hooks buildResult originalImage platform).error
            = some e ∧ e.type = .validationE) := by
  constructor
  · intro s
    constructor
    · intro hfalse
      unfold isValidImageName at hfalse
      split_ifs at hfalse with h1 h2 h3 h4
      · exact Or.inl h1
      · exact Or.inr (Or.inl h2)
      · refine Or.inr (Or.inr (Or.inr ?_))
        rw [Bool.not_eq_true'] at h3
        exact h3
      · refine Or.inr (Or.inr (Or.inl ?_))
        rcases List.any_eq_true.mp h4 with ⟨c, hc, hcs⟩
        rcases List.any_eq_true.mp hcs with ⟨x, hx, hxc⟩
        rw [beq_iff_eq] at hxc
        exact ⟨c, hc, hxc ▸ hx⟩
    · intro hdisj
      unfold isValidImageName
      split_ifs with h1 h2 h3 h4
      · rfl
      · rfl
      · rfl
      · rfl
      · rcases hdisj with rfl | hlen | ⟨c, hc, hcs⟩ | hgram
        · exact absurd rfl h1
        · exact absurd hlen h2
        · refine absurd (List.any_eq_true.mpr ⟨c, hc, ?_⟩) h4
          exact List.any_eq_true.mpr ⟨c, hcs, by simp⟩
        · rw [Bool.not_eq_true', Bool.not_eq_false] at h3
          exact absurd h3 (by rw [hgram]; simp)
  · intro rules registry nspace hooks buildResult originalImage platform h
    obtain ⟨e, hv, ht⟩ := validateTransformation_invalid_target
      (normalizeImageName originalImage) h
    rw [syncImage_eq, hv]
    exact ⟨rfl, e, rfl, ht⟩

/-- C7 (witness): a name with a shell metacharacter is rejected, and a
pipeline whose composed target name is invalid stops before the build. -/
theorem claim_C7_witness :
    isValidImageName (strLit "nginx;latest") = false
    ∧ (syncImage [] (strLit "reg.example.com") (strLit ";;") []
        (fun _ _ _ => none) (strLit "nginx:latest") []).buildAttempted = false :=
  ⟨(claim_C7_name_validation.1 _).mpr
      (Or.inr (Or.inr (Or.inl ⟨';', by decide, by decide⟩))),
   (claim_C7_name_validation.2 [] (strLit "reg.example.com") (strLit ";;") []
      (fun _ _ _ => none) (strLit "nginx:latest") [] (by decide)).1⟩

/-- C9: the verdict returned by `processSingleIssue` does not depend on
the outcome of the final reporting step (`FinishIssue`), and equals the
sync verdict (the issue-processing error, else the `syncImage` error). -/
theorem claim_C9_reporting_isolation (rules : List RewriteRule) (registry nspace : Str)
    (hooks : List PostProcessor) (buildResult : Str → Str → Str → Option AppError)
    (issueResult : Except AppError (Str × Str))
    (finishResult1 finishResult2 : Bool → Option AppError) :
    processSingleIssue rules registry nspace hooks buildResult issueResult finishResult1
      = processSingleIssue rules registry nspace hooks buildResult issueResult finishResult2
    ∧ processSingleIssue rules registry nspace hooks buildResult issueResult finishResult1
      = syncVerdict rules registry nspace hooks buildResult issueResult :=
  ⟨rfl, rfl⟩

/-- C10: `Transform` is total — for every input and target pair it
returns `.ok` (a nil Go error) with the normalize/rewrite/compose
composition; rejection of bad names is left to the separate validation
step. -/
theorem claim_C10_transform_total (rules : List RewriteRule)
    (originalImage targetRegistry targetNamespace : Str) :
    transform rules originalImage targetRegistry targetNamespace
      = .ok (normalizeImageName originalImage,
          buildTargetImageName
            (transformImageName (normalizeImageName originalImage) rules)
            targetRegistry targetNamespace) :=
  rfl

/-- C3 (witness): instantiated at Scenario C's platform sets. -/
theorem claim_C3_witness :
    strLit "linux/amd64"
      ∈ filterSupportedPlatforms [strLit "linux/amd64", strLit "linux/arm64"]
          [strLit "linux/amd64"]
    ∧ strLit "linux/arm64"
      ∈ getUnsupportedPlatforms [strLit "linux/amd64", strLit "linux/arm64"]
          [strLit "linux/amd64"] :=
  ⟨(claim_C3_platform_intersection [strLit "linux/amd64", strLit "linux/arm64"]
      [strLit "linux/amd64"] (strLit "linux/amd64")).1.mpr ⟨by decide, by decide⟩,
   (claim_C3_platform_intersection [strLit "linux/amd64", strLit "linux/arm64"]
      [strLit "linux/amd64"] (strLit "linux/arm64")).2.1.mpr ⟨by decide, by decide⟩⟩
